import Mathlib

/-!
Verification of the resume/job matching core of the `ats-optimizer` repository:
keyword extraction (`src/analyzer/keywords.py`), the five-dimensional ATS scorer
(`src/analyzer/scorer.py`), the suggestion generator (`src/analyzer/suggestions.py`),
the job-to-profile scorer (`src/discovery/scorer.py`) and the content selector's
skill ranking (`src/generator/content_selector.py`).

Python text values are modelled as `List Char` (a Python `str` is a sequence of
code points).  Python string methods (`lower`, `strip`, `find`, `count`, `split`,
substring membership) are translated as executable functions on `List Char`;
Python's `re` patterns used by the extractor are translated as explicit scanners
that mirror `re.findall` / `re.search` left-to-right scanning with the exact
alternation order and backtracking behaviour of each concrete pattern.
Python `float` arithmetic on scores is modelled exactly over `ℚ`, and Python's
`round` (banker's rounding, round-half-to-even) is `pyRound` below.
-/

/-- Python's `round`: round half to even, in executable integer form
(`q.floor` plus a comparison of twice the fractional part against 1,
scaled by the denominator). -/
def pyRound (q : ℚ) : ℤ :=
  let n := q.floor
  let r2 := 2 * (q.num - n * q.den)
  if r2 < q.den then n
  else if (q.den : ℤ) < r2 then n + 1
  else if n % 2 = 0 then n else n + 1

theorem ratFloor_eq_floor (q : ℚ) : q.floor = ⌊q⌋ := by
  rw [Rat.floor_def' q, Rat.floor_def]

theorem pyRound_eq (q : ℚ) :
    pyRound q = if q - ⌊q⌋ < 1/2 then ⌊q⌋
      else if 1/2 < q - ⌊q⌋ then ⌊q⌋ + 1
      else if ⌊q⌋ % 2 = 0 then ⌊q⌋ else ⌊q⌋ + 1 := by
  have hden : (0:ℚ) < (q.den : ℚ) := by exact_mod_cast q.den_pos
  have hnum : (q.num : ℚ) = q * (q.den : ℚ) := by
    calc (q.num : ℚ) = (q.num : ℚ) / (q.den : ℚ) * (q.den : ℚ) := by field_simp
    _ = q * (q.den : ℚ) := by rw [Rat.num_div_den q]
  have hcond1 : (2 * (q.num - q.floor * q.den) < (q.den:ℤ)) ↔ (q - ⌊q⌋ < 1/2) := by
    rw [ratFloor_eq_floor]
    constructor
    · intro h
      have h2 : ((2 * (q.num - ⌊q⌋ * q.den) : ℤ) : ℚ) < ((q.den : ℤ) : ℚ) := by
        exact_mod_cast h
      push_cast at h2
      rw [hnum] at h2
      nlinarith
    · intro h
      have h2 : ((2 * (q.num - ⌊q⌋ * q.den) : ℤ) : ℚ) < ((q.den : ℤ) : ℚ) := by
        push_cast
        rw [hnum]
        nlinarith
      exact_mod_cast h2
  have hcond2 : ((q.den:ℤ) < 2 * (q.num - q.floor * q.den)) ↔ (1/2 < q - ⌊q⌋) := by
    rw [ratFloor_eq_floor]
    constructor
    · intro h
      have h2 : ((q.den : ℤ) : ℚ) < ((2 * (q.num - ⌊q⌋ * q.den) : ℤ) : ℚ) := by
        exact_mod_cast h
      push_cast at h2
      rw [hnum] at h2
      nlinarith
    · intro h
      have h2 : ((q.den : ℤ) : ℚ) < ((2 * (q.num - ⌊q⌋ * q.den) : ℤ) : ℚ) := by
        push_cast
        rw [hnum]
        nlinarith
      exact_mod_cast h2
  unfold pyRound
  simp only [← hcond1, ← hcond2, ratFloor_eq_floor]

theorem pyRound_ge {q : ℚ} {n : ℤ} (h : (n:ℚ) ≤ q) : n ≤ pyRound q := by
  have h1 : n ≤ ⌊q⌋ := Int.le_floor.mpr h
  rw [pyRound_eq]
  split_ifs <;> omega

theorem pyRound_le {q : ℚ} {n : ℤ} (h : q ≤ (n:ℚ)) : pyRound q ≤ n := by
  have h1 : ⌊q⌋ ≤ n := by
    calc ⌊q⌋ ≤ ⌊(n:ℚ)⌋ := Int.floor_le_floor h
    _ = n := Int.floor_intCast n
  rw [pyRound_eq]
  rcases lt_or_eq_of_le h1 with h2 | h2
  · split_ifs <;> omega
  · have hc : ((⌊q⌋ : ℤ) : ℚ) = (n : ℚ) := by exact_mod_cast h2
    have h3 : q - (⌊q⌋ : ℚ) ≤ 0 := by linarith
    have h4 : q - (⌊q⌋ : ℚ) < 1/2 := lt_of_le_of_lt h3 (by norm_num)
    rw [if_pos h4]
    exact h1

theorem pyRound_mono {q r : ℚ} (h : q ≤ r) : pyRound q ≤ pyRound r := by
  have hf : ⌊q⌋ ≤ ⌊r⌋ := Int.floor_le_floor h
  rcases lt_or_eq_of_le hf with hlt | heq
  · have hub : pyRound q ≤ ⌊q⌋ + 1 := by rw [pyRound_eq]; split_ifs <;> omega
    have hlb : ⌊r⌋ ≤ pyRound r := by rw [pyRound_eq]; split_ifs <;> omega
    omega
  · rw [pyRound_eq, pyRound_eq, ← heq]
    have hd : q - ⌊q⌋ ≤ r - ⌊q⌋ := by linarith
    split_ifs <;> first | omega | linarith

theorem pyRound_intCast (n : ℤ) : pyRound (n : ℚ) = n :=
  le_antisymm (pyRound_le (le_refl _)) (pyRound_ge (le_refl _))

/-! ## Python string primitives over `List Char` -/

/-- The characters Python's `str.strip()` removes and `\s` matches
(ASCII fragment of Python's `str.isspace`). -/
def isSpaceChar (c : Char) : Bool :=
  c = ' ' || c = '\t' || c = '\n' || c = '\r' || c = '\x0b' || c = '\x0c'

/-- Python regex `\w` (ASCII fragment). -/
def isWordChar (c : Char) : Bool := c.isAlphanum || c = '_'

/-- Python `str.lower()` (character-wise case mapping). -/
def pyLower (s : List Char) : List Char := s.map Char.toLower

/-- Python `str.upper()` (character-wise case mapping). -/
def pyUpper (s : List Char) : List Char := s.map Char.toUpper

/-- Python `str.strip()`: drop leading and trailing whitespace. -/
def pyStrip (s : List Char) : List Char :=
  ((s.dropWhile isSpaceChar).reverse.dropWhile isSpaceChar).reverse

/-- Does `hay` start with `needle`? -/
def startsWithChars : List Char → List Char → Bool
  | _, [] => true
  | [], _ :: _ => false
  | c :: cs, n :: ns => c = n && startsWithChars cs ns

/-- Python `needle in hay` (contiguous substring; the empty needle is in
every string). -/
def containsSub : List Char → List Char → Bool
  | [], needle => needle.isEmpty
  | c :: t, needle => startsWithChars (c :: t) needle || containsSub t needle

/-- Helper for `findSub`. -/
def findSubAux (needle : List Char) : List Char → ℤ → ℤ
  | [], i => if needle.isEmpty then i else -1
  | c :: t, i => if startsWithChars (c :: t) needle then i else findSubAux needle t (i + 1)

/-- Python `hay.find(needle)`: index of the leftmost occurrence, `-1` if absent. -/
def findSub (hay needle : List Char) : ℤ := findSubAux needle hay 0

/-- Helper for `countSub`: non-overlapping count for a non-empty needle.
The fuel argument (structural recursion, so that the kernel can evaluate)
is the length of the remaining haystack; every step consumes at least one
character, so fuel never runs out when started at `hay.length`. -/
def countSubAux (needle : List Char) : ℕ → List Char → ℕ
  | 0, _ => 0
  | _, [] => 0
  | fuel + 1, c :: t =>
    if startsWithChars (c :: t) needle then
      1 + countSubAux needle fuel (t.drop (needle.length - 1))
    else countSubAux needle fuel t

/-- Python `hay.count(needle)`: non-overlapping occurrences
(`len(hay)+1` for the empty needle, as in CPython). -/
def countSub (hay needle : List Char) : ℕ :=
  if needle.isEmpty then hay.length + 1 else countSubAux needle hay.length hay

/-- Helper for `pySplit`. -/
def pySplitAux : List Char → List Char → List (List Char)
  | [], acc => if acc.isEmpty then [] else [acc.reverse]
  | c :: t, acc =>
    if isSpaceChar c then
      if acc.isEmpty then pySplitAux t [] else acc.reverse :: pySplitAux t []
    else pySplitAux t (c :: acc)

/-- Python `str.split()` with no argument: split on whitespace runs,
no empty fields. -/
def pySplit (s : List Char) : List (List Char) := pySplitAux s []

/-- Python string `<=` (lexicographic by code point). -/
def listLE : List Char → List Char → Bool
  | [], _ => true
  | _ :: _, [] => false
  | a :: as, b :: bs =>
    if a < b then true
    else if b < a then false
    else listLE as bs

theorem listLE_total : ∀ a b : List Char, listLE a b = true ∨ listLE b a = true
  | [], _ => Or.inl rfl
  | _ :: _, [] => Or.inr rfl
  | a :: as, b :: bs => by
    rcases lt_trichotomy a b with h | h | h
    · left; simp [listLE, h]
    · rcases listLE_total as bs with ih | ih
      · left; simp [listLE, h, lt_irrefl, ih]
      · right; simp [listLE, h, lt_irrefl, ih]
    · right; simp [listLE, h]

theorem listLE_cons_iff (a b : Char) (as bs : List Char) :
    listLE (a :: as) (b :: bs) = true ↔ a < b ∨ (a = b ∧ listLE as bs = true) := by
  simp only [listLE]
  split_ifs with g1 g2
  · simp [g1]
  · simp [asymm g2, ne_of_gt g2]
  · have : a = b := le_antisymm (not_lt.mp g2) (not_lt.mp g1)
    simp [this, lt_irrefl]

theorem listLE_trans : ∀ a b c : List Char,
    listLE a b = true → listLE b c = true → listLE a c = true
  | [], _, _ => by intro _ _; rfl
  | _ :: _, [], _ => by intro h _; simp [listLE] at h
  | _ :: _, _ :: _, [] => by intro _ h; simp [listLE] at h
  | a :: as, b :: bs, c :: cs => by
    intro h1 h2
    rw [listLE_cons_iff] at h1 h2 ⊢
    rcases h1 with h1 | ⟨rfl, t1⟩
    · rcases h2 with h2 | ⟨rfl, t2⟩
      · exact Or.inl (lt_trans h1 h2)
      · exact Or.inl h1
    · rcases h2 with h2 | ⟨rfl, t2⟩
      · exact Or.inl h2
      · exact Or.inr ⟨rfl, listLE_trans as bs cs t1 t2⟩

/-! ## Python's stable sort, as insertion sort -/

/-- Insert `x` behind every element `y` of `l` with `le y x` ("y may stay in
front of x").  On a sorted accumulator this is one step of a stable
insertion sort. -/
def insertStable (le : α → α → Bool) (x : α) : List α → List α
  | [] => [x]
  | y :: ys => if le y x then y :: insertStable le x ys else x :: y :: ys

/-- Python `sorted` / `list.sort` (stable): fold the input left to right,
inserting each element behind its predecessors of equal rank. -/
def sortStable (le : α → α → Bool) (l : List α) : List α :=
  l.foldl (fun acc x => insertStable le x acc) []

theorem mem_insertStable (le : α → α → Bool) (x : α) :
    ∀ l (a : α), a ∈ insertStable le x l ↔ a = x ∨ a ∈ l
  | [], a => by simp [insertStable]
  | y :: ys, a => by
    simp only [insertStable]
    split_ifs with h
    · simp only [List.mem_cons, mem_insertStable le x ys a]
      tauto
    · simp only [List.mem_cons]

theorem pairwise_insertStable (le : α → α → Bool)
    (htot : ∀ a b, le a b = false → le b a = true)
    (htrans : ∀ a b c, le a b = true → le b c = true → le a c = true)
    (x : α) : ∀ l, List.Pairwise (fun a b => le a b = true) l →
      List.Pairwise (fun a b => le a b = true) (insertStable le x l)
  | [], _ => by simp [insertStable]
  | y :: ys, h => by
    rcases List.pairwise_cons.mp h with ⟨hy, hys⟩
    simp only [insertStable]
    split_ifs with hle
    · refine List.pairwise_cons.mpr ⟨?_, pairwise_insertStable le htot htrans x ys hys⟩
      intro a ha
      rcases (mem_insertStable le x ys a).mp ha with rfl | ha
      · exact hle
      · exact hy a ha
    · refine List.pairwise_cons.mpr ⟨?_, h⟩
      intro a ha
      rcases List.mem_cons.mp ha with hay | ha
      · rw [hay]
        exact htot y x (Bool.eq_false_iff.mpr hle)
      · exact htrans x y a (htot y x (Bool.eq_false_iff.mpr hle)) (hy a ha)

theorem pairwise_foldl_insertStable (le : α → α → Bool)
    (htot : ∀ a b, le a b = false → le b a = true)
    (htrans : ∀ a b c, le a b = true → le b c = true → le a c = true) :
    ∀ (l acc : List α), List.Pairwise (fun a b => le a b = true) acc →
      List.Pairwise (fun a b => le a b = true)
        (l.foldl (fun acc x => insertStable le x acc) acc)
  | [], _, h => h
  | x :: t, acc, h =>
    pairwise_foldl_insertStable le htot htrans t (insertStable le x acc)
      (pairwise_insertStable le htot htrans x acc h)

theorem pairwise_sortStable (le : α → α → Bool)
    (htot : ∀ a b, le a b = false → le b a = true)
    (htrans : ∀ a b c, le a b = true → le b c = true → le a c = true)
    (l : List α) :
    List.Pairwise (fun a b => le a b = true) (sortStable le l) :=
  pairwise_foldl_insertStable le htot htrans l [] (List.Pairwise.nil)

/-- Descending comparison by a natural-number key, the shape of both
`Counter.most_common` and the extractor's final `sorted(..., reverse=True)`. -/
def descBy (k : α → ℕ) (a b : α) : Bool := decide (k b ≤ k a)

theorem descBy_total (k : α → ℕ) :
    ∀ a b, descBy k a b = false → descBy k b a = true := by
  intro a b h
  simp only [descBy, decide_eq_false_iff_not, not_le] at h
  simp only [descBy, decide_eq_true_eq]
  omega

theorem descBy_trans (k : α → ℕ) :
    ∀ a b c, descBy k a b = true → descBy k b c = true → descBy k a c = true := by
  intro a b c h1 h2
  simp only [descBy, decide_eq_true_eq] at h1 h2 ⊢
  omega

theorem filter_insertStable_descBy (k : α → ℕ) (x : α) (n : ℕ) :
    ∀ l, List.Pairwise (fun a b => descBy k a b = true) l →
      (insertStable (descBy k) x l).filter (fun a => k a = n) =
        if k x = n then l.filter (fun a => k a = n) ++ [x]
        else l.filter (fun a => k a = n)
  | [], _ => by
    simp only [insertStable, List.filter]
    split_ifs with h <;> simp [h]
  | y :: ys, h => by
    rcases List.pairwise_cons.mp h with ⟨hy, hys⟩
    simp only [insertStable]
    by_cases hle : descBy k y x = true
    · rw [if_pos hle]
      have ih := filter_insertStable_descBy k x n ys hys
      by_cases hyn : k y = n <;> by_cases hxn : k x = n <;>
        simp [List.filter_cons, hyn, hxn, ih]
    · rw [if_neg hle]
      have hlt : k y < k x := by
        simp only [descBy, decide_eq_true_eq] at hle
        omega
      have hnil : List.filter (fun a => decide (k a = n)) (y :: ys) = [] ∨ ¬ k x = n := by
        by_cases hxn : k x = n
        · left
          apply List.filter_eq_nil_iff.mpr
          intro a ha
          rcases List.mem_cons.mp ha with hay | ha
          · rw [hay]; simp only [decide_eq_true_eq]; omega
          · have := hy a ha
            simp only [descBy, decide_eq_true_eq] at this
            simp only [decide_eq_true_eq]
            omega
        · exact Or.inr hxn
      by_cases hxn : k x = n
      · rcases hnil with hnil | hbad
        · simp [List.filter_cons, hxn, hnil]
        · exact absurd hxn hbad
      · simp [List.filter_cons, hxn]

theorem filter_foldl_insertStable_descBy (k : α → ℕ) (n : ℕ) :
    ∀ (l acc : List α), List.Pairwise (fun a b => descBy k a b = true) acc →
      (l.foldl (fun acc x => insertStable (descBy k) x acc) acc).filter (fun a => k a = n) =
        acc.filter (fun a => k a = n) ++ l.filter (fun a => k a = n)
  | [], acc, _ => by simp
  | x :: t, acc, h => by
    have hsorted := pairwise_insertStable (descBy k) (descBy_total k) (descBy_trans k) x acc h
    have ih := filter_foldl_insertStable_descBy k n t (insertStable (descBy k) x acc) hsorted
    simp only [List.foldl_cons, ih, filter_insertStable_descBy k x n acc h]
    by_cases hxn : k x = n <;> simp [List.filter_cons, hxn]

/-- Stability of the descending sort: elements of any fixed rank appear in
their original relative order. -/
theorem filter_sortStable_descBy (k : α → ℕ) (n : ℕ) (l : List α) :
    (sortStable (descBy k) l).filter (fun a => k a = n) = l.filter (fun a => k a = n) := by
  have := filter_foldl_insertStable_descBy k n l [] (List.Pairwise.nil)
  simpa [sortStable] using this

/-! ## Python dict / Counter / set helpers -/

/-- Python `set` built by repeated insertion (membership and size are all
that is used of it): first-occurrence order, duplicates dropped. -/
def dedupKeys (l : List (List Char)) : List (List Char) :=
  l.foldl (fun acc x => if x ∈ acc then acc else acc ++ [x]) []

/-- `Counter[k] += 1` on an insertion-ordered association list. -/
def bumpCount : List (List Char × ℕ) → List Char → List (List Char × ℕ)
  | [], k => [(k, 1)]
  | (k', c) :: t, k => if k' = k then (k', c + 1) :: t else (k', c) :: bumpCount t k

/-- Python `dict.get` on an insertion-ordered association list. -/
def lookupAssoc : List (List Char × List Char) → List Char → Option (List Char)
  | [], _ => none
  | (k, v) :: t, x => if k = x then some v else lookupAssoc t x

theorem lookupAssoc_mem : ∀ (l : List (List Char × List Char)) (x v : List Char),
    lookupAssoc l x = some v → (x, v) ∈ l
  | [], x, v => by intro h; simp [lookupAssoc] at h
  | (k, w) :: t, x, v => by
    intro h
    simp only [lookupAssoc] at h
    split_ifs at h with hk
    · subst hk
      cases h
      exact List.mem_cons_self _ _
    · exact List.mem_cons_of_mem _ (lookupAssoc_mem t x v h)

/-! ## Static tables from `src/analyzer/keywords.py` -/

/-- `STOP_WORDS` from `src/analyzer/keywords.py`. -/
def STOP_WORDS : List (List Char) :=
  (["a", "an", "the", "and", "or", "but", "in", "on", "at", "to", "for",
    "of", "with", "by", "from", "as", "is", "was", "are", "were", "been",
    "be", "have", "has", "had", "do", "does", "did", "will", "would",
    "could", "should", "may", "might", "shall", "can", "need", "must",
    "it", "its", "this", "that", "these", "those", "i", "you", "he",
    "she", "we", "they", "me", "him", "her", "us", "them", "my", "your",
    "his", "our", "their", "what", "which", "who", "whom", "where",
    "when", "why", "how", "all", "each", "every", "both", "few", "more",
    "most", "other", "some", "such", "no", "not", "only", "own", "same",
    "so", "than", "too", "very", "just", "about", "above", "after",
    "again", "also", "any", "because", "before", "between", "during",
    "into", "through", "under", "until", "up", "out", "over",
    "including", "using", "working", "work", "experience", "role",
    "team", "company", "position", "looking", "strong", "ability",
    "etc", "e.g", "i.e", "well", "new", "required", "preferred",
    "plus", "bonus", "ideal", "minimum", "least", "years", "year"] : List String).map
    String.data

/-- `SKILL_ALIASES` from `src/analyzer/keywords.py`, in dict insertion order
(the order matters: it is the alternation order of the first extraction
pattern). -/
def SKILL_ALIASES : List (List Char × List Char) :=
  ([("js", "JavaScript"),
    ("javascript", "JavaScript"),
    ("ts", "TypeScript"),
    ("typescript", "TypeScript"),
    ("py", "Python"),
    ("python", "Python"),
    ("node", "Node.js"),
    ("nodejs", "Node.js"),
    ("node.js", "Node.js"),
    ("react", "React"),
    ("reactjs", "React"),
    ("react.js", "React"),
    ("vue", "Vue.js"),
    ("vuejs", "Vue.js"),
    ("angular", "Angular"),
    ("angularjs", "Angular"),
    ("django", "Django"),
    ("flask", "Flask"),
    ("fastapi", "FastAPI"),
    ("spring", "Spring"),
    ("springboot", "Spring Boot"),
    ("spring boot", "Spring Boot"),
    ("aws", "AWS"),
    ("amazon web services", "AWS"),
    ("gcp", "GCP"),
    ("google cloud", "GCP"),
    ("azure", "Azure"),
    ("docker", "Docker"),
    ("kubernetes", "Kubernetes"),
    ("k8s", "Kubernetes"),
    ("postgres", "PostgreSQL"),
    ("postgresql", "PostgreSQL"),
    ("mysql", "MySQL"),
    ("mongodb", "MongoDB"),
    ("mongo", "MongoDB"),
    ("redis", "Redis"),
    ("kafka", "Kafka"),
    ("rabbitmq", "RabbitMQ"),
    ("graphql", "GraphQL"),
    ("rest", "REST"),
    ("restful", "REST"),
    ("ci/cd", "CI/CD"),
    ("cicd", "CI/CD"),
    ("git", "Git"),
    ("github", "GitHub"),
    ("gitlab", "GitLab"),
    ("terraform", "Terraform"),
    ("ansible", "Ansible"),
    ("linux", "Linux"),
    ("sql", "SQL"),
    ("nosql", "NoSQL"),
    ("html", "HTML"),
    ("css", "CSS"),
    ("sass", "SASS"),
    ("scss", "SASS"),
    ("webpack", "Webpack"),
    ("nginx", "Nginx"),
    ("apache", "Apache"),
    ("elasticsearch", "Elasticsearch"),
    ("ml", "Machine Learning"),
    ("machine learning", "Machine Learning"),
    ("deep learning", "Deep Learning"),
    ("nlp", "NLP"),
    ("natural language processing", "NLP"),
    ("ai", "AI"),
    ("artificial intelligence", "AI"),
    ("agile", "Agile"),
    ("scrum", "Scrum"),
    ("jira", "Jira"),
    ("jenkins", "Jenkins")] : List (String × String)).map
    (fun p => (p.1.data, p.2.data))

/-- The alias keys in insertion order (the regex alternation order). -/
def aliasKeys : List (List Char) := SKILL_ALIASES.map Prod.fst

/-- The alias values. -/
def aliasValues : List (List Char) := SKILL_ALIASES.map Prod.snd

/-- `normalize_keyword` from `src/analyzer/keywords.py`:
`SKILL_ALIASES.get(text.strip().lower(), text.strip())`. -/
def normalize_keyword (text : List Char) : List Char :=
  let lower := pyLower (pyStrip text)
  match lookupAssoc SKILL_ALIASES lower with
  | some v => v
  | none => pyStrip text

/-! ## The extractor's regex patterns as explicit scanners

Each of the concrete patterns of `_extract_technical_terms` and of the
single-word harvest is translated as a matcher `Option Char → List Char → ℕ`
returning the length of the match at the current position (0 = no match;
the previous character is carried for `\b`), plus a generic `re.findall`
driver that scans left to right and resumes after each match. -/

/-- Length of the run of characters satisfying `p` at the front of the list. -/
def runLen (p : Char → Bool) : List Char → ℕ
  | [] => 0
  | c :: t => if p c then runLen p t + 1 else 0

/-- `\b` before a match whose first character is a word character: the
previous character (if any) must not be a word character. -/
def boundaryBefore : Option Char → Bool
  | none => true
  | some c => !(isWordChar c)

/-- `\b` at offset `n` of `s` when the character at `n-1` is a word
character: end of input or a non-word character follows. -/
def wordEndBoundary (s : List Char) (n : ℕ) : Bool :=
  match s.drop n with
  | [] => true
  | c :: _ => !(isWordChar c)

/-- `\b` at offset `e ≥ 1` of `s` in full generality (the character to the
left may itself be a non-word character, as for `[a-z-]+`): word-ness must
differ across the position, out of range counting as non-word. -/
def generalBoundary (s : List Char) (e : ℕ) : Bool :=
  let left := match s.get? (e - 1) with
    | some c => isWordChar c
    | none => false
  let right := match s.get? e with
    | some c => isWordChar c
    | none => false
  left != right

/-- `re.findall` driver: try the matcher at each position, emit each match
and resume right after it.  The fuel argument (structural recursion, so
that the kernel can evaluate) bounds the number of scan steps; every step
consumes at least one character, so fuel never runs out when started at
the length of the scanned text. -/
def scanAllFuel (m : Option Char → List Char → ℕ) :
    ℕ → Option Char → List Char → List (List Char)
  | 0, _, _ => []
  | _, _, [] => []
  | fuel + 1, prev, c :: t =>
    let n := m prev (c :: t)
    if n = 0 then scanAllFuel m fuel (some c) t
    else (c :: t).take n :: scanAllFuel m fuel ((c :: t).get? (n - 1)) ((c :: t).drop n)

/-- `re.findall` over a whole text. -/
def scanAll (m : Option Char → List Char → ℕ) (prev : Option Char) (text : List Char) :
    List (List Char) :=
  scanAllFuel m text.length prev text

/-- First alternative of `\b(?:key1|key2|...)\b` (IGNORECASE) that matches at
this position: the keys are tried in alternation (dict insertion) order, each
as a case-insensitive literal followed by a word boundary. -/
def matchAliasKey : List (List Char) → List Char → ℕ
  | [], _ => 0
  | k :: rest, s =>
    if pyLower (s.take k.length) = k ∧ k.length ≤ s.length ∧ wordEndBoundary s k.length = true
    then k.length
    else matchAliasKey rest s

/-- Matcher for pattern 1 of `_extract_technical_terms`:
`\b(?:' + '|'.flatten(re.escape(k) for k in SKILL_ALIASES.keys()) + r')\b` with
`re.IGNORECASE` (every key begins and ends with a word character). -/
def matchAlias (prev : Option Char) (s : List Char) : ℕ :=
  if boundaryBefore prev then matchAliasKey aliasKeys s else 0

/-- Backtracking of the inner `[a-z]+` of the optional group `(?:\.[a-z]+)?`:
try run lengths from the greedy maximum down to 1, each followed by `\b`
(the character before that boundary is a letter, hence a word character). -/
def properDotRun (s : List Char) (q : ℕ) : ℕ → Option ℕ
  | 0 => none
  | p + 1 =>
    if wordEndBoundary s (q + 1 + (p + 1)) then some (q + 1 + (p + 1))
    else properDotRun s q p

/-- One backtracking step of pattern 2 with `L ≥ 2` letters consumed by
`[A-Z][a-z]+`: first the optional `(?:\.[a-z]+)?` (greedy), then `\b`. -/
def properAt (s : List Char) (L : ℕ) : ℕ :=
  match s.drop L with
  | '.' :: rest =>
    match properDotRun s L (runLen Char.isAlpha rest) with
    | some len => len
    | none => if wordEndBoundary s L then L else 0
  | _ => if wordEndBoundary s L then L else 0

/-- Backtracking of the outer `[a-z]+` of pattern 2: letter counts from the
greedy maximum down to 2. -/
def properTry (s : List Char) : ℕ → ℕ
  | 0 => 0
  | 1 => 0
  | L + 2 =>
    let r := properAt s (L + 2)
    if r ≠ 0 then r else properTry s (L + 1)

/-- Matcher for pattern 2 of `_extract_technical_terms`:
`\b[A-Z][a-z]+(?:\.[a-z]+)?\b` with `re.IGNORECASE` (so both character
classes match any ASCII letter). -/
def matchProperNoun (prev : Option Char) (s : List Char) : ℕ :=
  if boundaryBefore prev then
    match s with
    | [] => 0
    | c :: _ => if c.isAlpha then properTry s (runLen Char.isAlpha s) else 0
  else 0

/-- Backtracking of `[A-Z]{2,6}`: lengths from `min(run, 6)` down to 2, each
followed by `\b`. -/
def acronymTry (s : List Char) : ℕ → ℕ
  | 0 => 0
  | 1 => 0
  | L + 2 => if wordEndBoundary s (L + 2) then L + 2 else acronymTry s (L + 1)

/-- Matcher for pattern 3 of `_extract_technical_terms`: `\b[A-Z]{2,6}\b`
with `re.IGNORECASE` (any ASCII letter). -/
def matchAcronym (prev : Option Char) (s : List Char) : ℕ :=
  if boundaryBefore prev then acronymTry s (min (runLen Char.isAlpha s) 6) else 0

/-- Backtracking of the second `\w+` of pattern 4 (offset `base` is just
after the dot): run lengths from the greedy maximum down to 1, followed by
`\b`. -/
def dottedW2 (s : List Char) (base : ℕ) : ℕ → ℕ
  | 0 => 0
  | p + 1 =>
    if wordEndBoundary s (base + (p + 1)) then base + (p + 1) else dottedW2 s base p

/-- Backtracking of the first `\w+` of pattern 4: run lengths from the greedy
maximum down to 1, each followed by a literal `.` and the second `\w+`. -/
def dottedW1 (s : List Char) : ℕ → ℕ
  | 0 => 0
  | a + 1 =>
    match s.drop (a + 1) with
    | '.' :: rest =>
      let r := dottedW2 s (a + 1 + 1) (runLen isWordChar rest)
      if r ≠ 0 then r else dottedW1 s a
    | _ => dottedW1 s a

/-- Matcher for pattern 4 of `_extract_technical_terms`: `\b\w+\.\w+\b`. -/
def matchDotted (prev : Option Char) (s : List Char) : ℕ :=
  if boundaryBefore prev then
    match s with
    | [] => 0
    | c :: _ => if isWordChar c then dottedW1 s (runLen isWordChar s) else 0
  else 0

/-- Backtracking of `[a-z-]+` (length `≥ 1` after the leading `[a-z]`): run
lengths from the greedy maximum down to 1, each followed by a general `\b`
(the character to its left may be `-`, a non-word character). -/
def lowerWordTry (s : List Char) : ℕ → ℕ
  | 0 => 0
  | p + 1 =>
    if generalBoundary s (1 + (p + 1)) then 1 + (p + 1) else lowerWordTry s p

/-- Matcher for the single-word harvest `\b[a-z][a-z-]+\b` (no IGNORECASE;
it is applied to the lowered text). -/
def matchLowerWord (prev : Option Char) (s : List Char) : ℕ :=
  if boundaryBefore prev then
    match s with
    | [] => 0
    | c :: rest =>
      if c.isLower then lowerWordTry s (runLen (fun d => d.isLower || d = '-') rest)
      else 0
  else 0

/-- `_extract_technical_terms` from `src/analyzer/keywords.py`: findall each
of the four patterns over the text and pool the matches. -/
def extract_technical_terms (text : List Char) : List (List Char) :=
  scanAll matchAlias none text
    ++ scanAll matchProperNoun none text
    ++ scanAll matchAcronym none text
    ++ scanAll matchDotted none text

/-! ## `extract_keywords` and `extract_keywords_with_importance` -/

/-- A single extracted keyword (`Keyword` dataclass). -/
structure Keyword where
  text : List Char
  canonical : List Char
  frequency : ℕ
  category : String
deriving DecidableEq

/-- Result of keyword extraction (`KeywordExtractionResult` dataclass). -/
structure KeywordExtractionResult where
  keywords : List Keyword
  raw_text : List Char
deriving DecidableEq

/-- Category classification of step 6 of `extract_keywords`:
`skill` if the canonical form is an alias key (lowercased) or an alias value,
else `tool` if it has an uppercase character and is at most 15 characters,
else `general`. -/
def keywordCategory (canonical : List Char) : String :=
  if pyLower canonical ∈ aliasKeys ∨ canonical ∈ aliasValues then "skill"
  else if canonical.any Char.isUpper ∧ canonical.length ≤ 15 then "tool"
  else "general"

/-- Steps 1-6 of `extract_keywords`: harvest technical terms and single
words, count frequencies of normalized non-stop-word terms (insertion
ordered `Counter`), take `most_common(max_keywords * 2)` (stable descending
sort by count) and deduplicate by canonical form, keeping insertion order.
This is the `keywords` dict of the source in its insertion order. -/
def keywordPool (text : List Char) (max_keywords : ℕ) : List Keyword :=
  let tech_terms := extract_technical_terms text
  let words := (scanAll matchLowerWord none (pyLower text)).filter
      (fun w => w ∉ STOP_WORDS ∧ w.length > 2)
  let all_terms := tech_terms ++ words
  let freq := all_terms.foldl (fun acc term =>
      let canonical := normalize_keyword term
      if pyLower canonical ∉ STOP_WORDS ∧ canonical.length > 1
      then bumpCount acc canonical else acc) []
  let common := (sortStable (descBy Prod.snd) freq).take (max_keywords * 2)
  common.foldl (fun kws tc =>
      let canonical := normalize_keyword tc.1
      if kws.any (fun kw => kw.canonical = canonical) then kws
      else kws ++ [⟨tc.1, canonical, tc.2, keywordCategory canonical⟩]) []

/-- `extract_keywords` from `src/analyzer/keywords.py`: empty or
whitespace-only text gives an empty result; otherwise the pooled keywords
sorted by frequency descending (stable) and truncated to `max_keywords`. -/
def extract_keywords (text : List Char) (max_keywords : ℕ) : KeywordExtractionResult :=
  if text.isEmpty ∨ (pyStrip text).isEmpty then ⟨[], text⟩
  else
    ⟨(sortStable (descBy Keyword.frequency) (keywordPool text max_keywords)).take max_keywords,
     text⟩

/-- An importance-weighted keyword (the dict produced by
`extract_keywords_with_importance`). -/
structure WeightedKeyword where
  keyword : List Char
  category : String
  importance : String
  frequency : ℕ
deriving DecidableEq

/-- The per-keyword body of the loop of `extract_keywords_with_importance`:
position of the first case-insensitive occurrence of the canonical form
(falling back to the stored surface text), `high` if strictly before the
character midpoint, else by frequency. -/
def importanceEntry (jd_text : List Char) (kw : Keyword) : WeightedKeyword :=
  let midpoint : ℤ := (jd_text.length / 2 : ℕ)
  let pos0 := findSub (pyLower jd_text) (pyLower kw.canonical)
  let first_pos := if pos0 = -1 then findSub (pyLower jd_text) (pyLower kw.text) else pos0
  let importance :=
    if first_pos < midpoint then "high"
    else if kw.frequency ≥ 3 then "high"
    else if kw.frequency ≥ 2 then "medium"
    else "low"
  ⟨kw.canonical, kw.category, importance, kw.frequency⟩

/-- `extract_keywords_with_importance` from `src/analyzer/keywords.py`. -/
def extract_keywords_with_importance (jd_text : List Char) (max_keywords : ℕ) :
    List WeightedKeyword :=
  ((extract_keywords jd_text max_keywords).keywords).map (importanceEntry jd_text)

/-! ## ATS scorer (`src/analyzer/scorer.py`) -/

/-- Detailed breakdown of the ATS score (`ScoreBreakdown` dataclass). -/
structure ScoreBreakdown where
  keyword_match : ℤ
  section_completeness : ℤ
  keyword_density : ℤ
  experience_relevance : ℤ
  formatting : ℤ
deriving DecidableEq

/-- Complete ATS scoring result (`ScoreResult` dataclass). -/
structure ScoreResult where
  overall_score : ℤ
  breakdown : ScoreBreakdown
  matched_keywords : List (List Char)
  missing_keywords : List WeightedKeyword
  formatting_issues : List (List Char)
deriving DecidableEq

/-- `{"high": 3, "medium": 2, "low": 1}.get(importance, 1)`. -/
def importanceWeight (importance : String) : ℤ :=
  if importance = "high" then 3
  else if importance = "medium" then 2
  else if importance = "low" then 1
  else 1

/-- The JD keyword list of `_score_keyword_match`:
`extract_keywords_with_importance(jd_text, max_keywords=25)`. -/
def jdKeywords25 (jd_text : List Char) : List WeightedKeyword :=
  extract_keywords_with_importance jd_text 25

/-- The `matched` list of `_score_keyword_match`: the keywords whose
lowercase form occurs in the lowered resume, in order. -/
def kmMatched (resume_text jd_text : List Char) : List (List Char) :=
  ((jdKeywords25 jd_text).filter
    (fun kw => containsSub (pyLower resume_text) (pyLower kw.keyword))).map
    (fun kw => kw.keyword)

/-- The `missing` list of `_score_keyword_match`. -/
def kmMissing (resume_text jd_text : List Char) : List WeightedKeyword :=
  (jdKeywords25 jd_text).filter
    (fun kw => !(containsSub (pyLower resume_text) (pyLower kw.keyword)))

/-- `total_weight` of `_score_keyword_match`. -/
def kmTotalWeight (jd_text : List Char) : ℤ :=
  ((jdKeywords25 jd_text).map (fun kw => importanceWeight kw.importance)).sum

/-- `matched_weight` of `_score_keyword_match`: the weight of each JD
keyword whose keyword string is in the `matched` list. -/
def kmMatchedWeight (resume_text jd_text : List Char) : ℤ :=
  ((jdKeywords25 jd_text).map (fun kw =>
    if kw.keyword ∈ kmMatched resume_text jd_text then importanceWeight kw.importance
    else 0)).sum

/-- `ATSScorer._score_keyword_match`: extract up to 25 importance-weighted JD
keywords; if none, 100.  Otherwise split into matched/missing by
case-insensitive substring presence in the resume and score the
importance-weighted matched ratio, rounded and capped at 100. -/
def score_keyword_match (resume_text jd_text : List Char) :
    ℤ × List (List Char) × List WeightedKeyword :=
  if (jdKeywords25 jd_text).isEmpty then (100, [], [])
  else
    let score := if 0 < kmTotalWeight jd_text
      then pyRound (Rat.divInt (kmMatchedWeight resume_text jd_text * 100)
        (kmTotalWeight jd_text))
      else 0
    (min score 100, kmMatched resume_text jd_text, kmMissing resume_text jd_text)

/-- `EXPECTED_SECTIONS` from `src/analyzer/scorer.py`. -/
def EXPECTED_SECTIONS : List (List Char) :=
  (["summary", "experience", "education", "skills"] : List String).map String.data

/-- `OPTIONAL_SECTIONS` from `src/analyzer/scorer.py`. -/
def OPTIONAL_SECTIONS : List (List Char) :=
  (["certifications", "projects"] : List String).map String.data

/-- `section.replace("_", " ")`. -/
def replaceUnderscores (s : List Char) : List Char :=
  s.map (fun c => if c = '_' then ' ' else c)

/-- The header variations checked for an expected section. -/
def expectedSectionVariations (sec : List Char) : List (List Char) :=
  [sec, replaceUnderscores sec, pyUpper sec] ++
  (if sec = "summary".data then
    ["professional summary".data, "objective".data, "about".data]
  else if sec = "experience".data then
    ["work experience".data, "professional experience".data, "employment".data]
  else if sec = "education".data then
    ["academic".data, "degree".data]
  else if sec = "skills".data then
    ["technical skills".data, "core competencies".data, "technologies".data]
  else [])

/-- The header variations checked for an optional section. -/
def optionalSectionVariations (sec : List Char) : List (List Char) :=
  [sec, pyUpper sec] ++
  (if sec = "certifications".data then
    ["certificates".data, "certification".data]
  else if sec = "projects".data then
    ["personal projects".data, "side projects".data]
  else [])

/-- `ATSScorer._score_sections`: count the expected and optional sections
whose variations occur in the lowered resume, over a total of 6. -/
def score_sections (resume_text : List Char) : ℤ :=
  let resume_lower := pyLower resume_text
  let found :=
    (EXPECTED_SECTIONS.filter
      (fun s => (expectedSectionVariations s).any (fun v => containsSub resume_lower v))).length
    + (OPTIONAL_SECTIONS.filter
      (fun s => (optionalSectionVariations s).any (fun v => containsSub resume_lower v))).length
  let total := EXPECTED_SECTIONS.length + OPTIONAL_SECTIONS.length
  if 0 < total then pyRound (Rat.divInt (found * 100) total) else 0

/-- `ATSScorer._score_keyword_density`: neutral 50 with no matched keywords,
else map the occurrence density of the matched keywords onto the fixed
inverted-U table. -/
def score_keyword_density (resume_text : List Char) (matched_keywords : List (List Char)) : ℤ :=
  if matched_keywords.isEmpty then 50
  else
    let total_words := (pySplit resume_text).length
    if total_words = 0 then 0
    else
      let resume_lower := pyLower resume_text
      let total_occurrences :=
        (matched_keywords.map (fun kw => countSub resume_lower (pyLower kw))).sum
      let density := Rat.divInt total_occurrences total_words
      if density < Rat.divInt 1 100 then 40
      else if density ≤ Rat.divInt 3 100 then 80
      else if density ≤ Rat.divInt 6 100 then 100
      else if density ≤ Rat.divInt 10 100 then 80
      else 50

/-- The resume-side canonical set of `_score_experience_relevance`. -/
def erResumeSet (resume_text : List Char) : List (List Char) :=
  dedupKeys ((extract_keywords resume_text 20).keywords.map (fun k => pyLower k.canonical))

/-- The JD-side canonical set of `_score_experience_relevance`. -/
def erJdSet (jd_text : List Char) : List (List Char) :=
  dedupKeys ((extract_keywords jd_text 20).keywords.map (fun k => pyLower k.canonical))

/-- `ATSScorer._score_experience_relevance`: canonical-form set overlap of
20-keyword extractions of resume and JD over the JD set size; 100 if the JD
set is empty; rounded and capped at 100. -/
def score_experience_relevance (resume_text jd_text : List Char) : ℤ :=
  if (erJdSet jd_text).isEmpty then 100
  else
    let overlap := ((erJdSet jd_text).filter (fun k => k ∈ erResumeSet resume_text)).length
    min (pyRound (Rat.divInt (overlap * 100) (erJdSet jd_text).length)) 100

/-- One position of the search for `[\w.+-]+@[\w-]+\.[\w.-]+`:
a maximal non-empty `[\w.+-]` run, `@`, a maximal non-empty `[\w-]` run,
`.`, and a non-empty `[\w.-]` run (each run is maximal because the
delimiter that must follow it is outside its class). -/
def emailAt (s : List Char) : Bool :=
  let r1 := runLen (fun c => isWordChar c || c = '.' || c = '+' || c = '-') s
  if r1 = 0 then false
  else match s.drop r1 with
    | '@' :: rest =>
      let r2 := runLen (fun c => isWordChar c || c = '-') rest
      if r2 = 0 then false
      else match rest.drop r2 with
        | '.' :: rest2 =>
          decide (0 < runLen (fun c => isWordChar c || c = '.' || c = '-') rest2)
        | _ => false
    | _ => false

/-- `re.search(r'[\w.+-]+@[\w-]+\.[\w.-]+', s)` as a Boolean. -/
def searchEmail : List Char → Bool
  | [] => false
  | c :: t => emailAt (c :: t) || searchEmail t

/-- The character class `[\d\s\-\(\)]` of the phone pattern. -/
def phoneClass (c : Char) : Bool :=
  c.isDigit || isSpaceChar c || c = '-' || c = '(' || c = ')'

/-- One position of the search for `[\+]?[\d\s\-\(\)]{7,15}`: an optional
`+` followed by at least 7 class characters. -/
def phoneAt (s : List Char) : Bool :=
  match s with
  | '+' :: t => decide (7 ≤ runLen phoneClass t)
  | _ => decide (7 ≤ runLen phoneClass s)

/-- `re.search(r'[\+]?[\d\s\-\(\)]{7,15}', s)` as a Boolean. -/
def searchPhone : List Char → Bool
  | [] => false
  | c :: t => phoneAt (c :: t) || searchPhone t

/-- `re.search(r'[•\-\*] ', s)` as a Boolean: a bullet marker followed by
a space. -/
def searchBullets : List Char → Bool
  | c :: d :: t => ((c = '•' || c = '-' || c = '*') && d = ' ') || searchBullets (d :: t)
  | _ => false

/-- One position of the search for `\b20\d{2}\b`. -/
def dateAt (prev : Option Char) (s : List Char) : Bool :=
  match s with
  | '2' :: '0' :: a :: b :: rest =>
    boundaryBefore prev && a.isDigit && b.isDigit &&
      (match rest with
       | [] => true
       | c :: _ => !(isWordChar c))
  | _ => false

/-- `re.search(r'\b20\d{2}\b', s)` as a Boolean. -/
def searchDates (prev : Option Char) : List Char → Bool
  | [] => false
  | c :: t => dateAt prev (c :: t) || searchDates (some c) t

/-- The formatting score of `ATSScorer._score_formatting` before the final
`max(score, 0)` clamp: 100 minus the fixed penalties (the too-short and
too-long branches are mutually exclusive). -/
def formattingRawScore (resume_text : List Char) : ℤ :=
  let word_count := (pySplit resume_text).length
  100 - (if word_count < 150 then 20 else if 1200 < word_count then 10 else 0)
    - (if searchEmail resume_text then 0 else 10)
    - (if searchPhone resume_text then 0 else 5)
    - (if searchBullets resume_text then 0 else 10)
    - (if searchDates none resume_text then 0 else 10)

/-- `ATSScorer._score_formatting`: the clamped score and the issue strings
of the triggered penalties, in source order. -/
def score_formatting (resume_text : List Char) : ℤ × List (List Char) :=
  let word_count := (pySplit resume_text).length
  let issues :=
    (if word_count < 150 then
      ["Resume too short (".data ++ (Nat.repr word_count).data
        ++ " words). Aim for 300+ words.".data]
    else if 1200 < word_count then
      ["Resume too long (".data ++ (Nat.repr word_count).data
        ++ " words). Keep under 800 words for 1-2 pages.".data]
    else [])
    ++ (if searchEmail resume_text then [] else ["No email address found in resume.".data])
    ++ (if searchPhone resume_text then [] else ["No phone number found in resume.".data])
    ++ (if searchBullets resume_text then []
        else ["No bullet points found. Use bullet points for experience items.".data])
    ++ (if searchDates none resume_text then []
        else ["No dates found. Include dates for experience and education.".data])
  (max (formattingRawScore resume_text) 0, issues)

/-- `ATSScorer.score`: the five weighted sub-scores and the rounded overall
score `round(0.40*km + 0.15*sc + 0.15*kd + 0.15*er + 0.15*fmt)`, expressed
over `ℚ` as `(40*km + 15*sc + 15*kd + 15*er + 15*fmt) / 100`. -/
def ATSScorer.score (resume_text jd_text : List Char) : ScoreResult :=
  let kmr := score_keyword_match resume_text jd_text
  let km := kmr.1
  let matched := kmr.2.1
  let missing := kmr.2.2
  let sc := score_sections resume_text
  let kd := score_keyword_density resume_text matched
  let er := score_experience_relevance resume_text jd_text
  let fr := score_formatting resume_text
  let overall := pyRound (Rat.divInt (40 * km + 15 * sc + 15 * kd + 15 * er + 15 * fr.1) 100)
  ⟨overall, ⟨km, sc, kd, er, fr.1⟩, matched, missing, fr.2⟩

/-! ## Suggestion generator (`src/analyzer/suggestions.py`) -/

/-- Python `", ".flatten(...)`. -/
def joinCommaSep : List (List Char) → List Char
  | [] => []
  | [x] => x
  | x :: y :: t => x ++ ", ".data ++ joinCommaSep (y :: t)

/-- The critical keyword suggestion string. -/
def criticalKeywordSuggestion (names : List (List Char)) : List Char :=
  "CRITICAL: Add these missing high-priority keywords: ".data ++ joinCommaSep names

/-- The medium-priority keyword suggestion string. -/
def mediumKeywordSuggestion (names : List (List Char)) : List Char :=
  "Add these missing keywords if applicable: ".data ++ joinCommaSep names

/-- The generic keyword suggestion string of the `< 80` tier. -/
def considerKeywordSuggestion (names : List (List Char)) : List Char :=
  "Consider adding: ".data ++ joinCommaSep names ++ " to improve keyword match.".data

/-- The high-importance missing keywords of a score result, in order. -/
def highPriorityMissing (sr : ScoreResult) : List WeightedKeyword :=
  sr.missing_keywords.filter (fun kw => kw.importance = "high")

/-- The medium-importance missing keywords of a score result, in order. -/
def mediumPriorityMissing (sr : ScoreResult) : List WeightedKeyword :=
  sr.missing_keywords.filter (fun kw => kw.importance = "medium")

/-- `generate_suggestions` from `src/analyzer/suggestions.py`: the ordered
advisory strings (keyword, section, density, experience, formatting tiers,
then exactly one overall assessment). -/
def generate_suggestions (sr : ScoreResult) : List (List Char) :=
  let breakdown := sr.breakdown
  let kwSugs :=
    if breakdown.keyword_match < 60 then
      (if (highPriorityMissing sr).isEmpty then []
       else [criticalKeywordSuggestion
          (((highPriorityMissing sr).take 5).map (fun kw => kw.keyword))])
      ++ (if (mediumPriorityMissing sr).isEmpty then []
          else [mediumKeywordSuggestion
             (((mediumPriorityMissing sr).take 5).map (fun kw => kw.keyword))])
    else if breakdown.keyword_match < 80 then
      if (sr.missing_keywords.take 5).isEmpty then []
      else [considerKeywordSuggestion ((sr.missing_keywords.take 5).map (fun kw => kw.keyword))]
    else []
  let secSugs :=
    if breakdown.section_completeness < 70 then
      [("Your resume is missing key sections. Ensure you have: "
        ++ "Professional Summary, Experience, Education, and Skills sections.").data]
    else if breakdown.section_completeness < 100 then
      ["Consider adding Certifications or Projects sections if applicable.".data]
    else []
  let denSugs :=
    if breakdown.keyword_density < 50 then
      [("Keywords appear too infrequently. Naturally weave them into "
        ++ "your experience bullet points and summary.").data]
    else if 90 < breakdown.keyword_density ∧ 80 < breakdown.keyword_match then []
    else if breakdown.keyword_density < 70 then
      [("Increase keyword usage by incorporating relevant terms into "
        ++ "your experience descriptions and achievements.").data]
    else []
  let expSugs :=
    if breakdown.experience_relevance < 50 then
      [("Your experience bullets don".data ++ ['\'']
        ++ "t align well with the job description. ".data
        ++ "Rephrase bullets to highlight relevant achievements and technologies.".data)]
    else if breakdown.experience_relevance < 70 then
      [("Improve experience relevance by adding metrics and using action "
        ++ "verbs that match the JD responsibilities.").data]
    else []
  let fmtSugs := sr.formatting_issues.map (fun issue => "Formatting: ".data ++ issue)
  let overallSug :=
    if 80 ≤ sr.overall_score then
      ["✅ Good ATS score! Minor tweaks can push it even higher.".data]
    else if 60 ≤ sr.overall_score then
      [("⚠️ Moderate ATS score. Focus on adding missing keywords and "
        ++ "rephrasing experience bullets.").data]
    else
      [("🔴 Low ATS score. This resume needs significant keyword additions "
        ++ "and structural improvements before submitting.").data]
  kwSugs ++ secSugs ++ denSugs ++ expSugs ++ fmtSugs ++ overallSug

/-! ## Candidate profile and discovered job (read-only inputs of the
job-profile scorer and the content selector) -/

/-- `DiscoveredJob` from `src/automation/drivers/base.py` (the `metadata`
dict is unused by the scoring core). -/
structure DiscoveredJob where
  title : List Char
  company : List Char
  url : List Char
  source : List Char
  location : List Char
  salary_range : List Char
  description_text : List Char
  external_id : List Char
deriving DecidableEq

/-- One skill item (`{name, proficiency, years}`; `years` is unused by the
core). -/
structure SkillItem where
  name : List Char
  proficiency : String
deriving DecidableEq

/-- One skill category of the profile. -/
structure SkillCategory where
  category : List Char
  items : List SkillItem
deriving DecidableEq

/-- One experience bullet (`{text, tags}`). -/
structure ExperienceBullet where
  text : List Char
  tags : List (List Char)
deriving DecidableEq

/-- One experience entry. -/
structure ExperienceEntry where
  company : List Char
  title : List Char
  location : List Char
  start_date : List Char
  end_date : Option (List Char)
  bullets : List ExperienceBullet
deriving DecidableEq

/-- One project entry (`{description, tech_stack}`). -/
structure ProjectEntry where
  description : List Char
  tech_stack : List (List Char)
deriving DecidableEq

/-- One pre-written summary (`{target_role, text}`). -/
structure SummaryEntry where
  target_role : List Char
  text : List Char
deriving DecidableEq

/-- `CandidateProfile` from `src/profile/manager.py`, restricted to the
fields the scoring/selection core reads. -/
structure CandidateProfile where
  summaries : List SummaryEntry
  skills : List SkillCategory
  experience : List ExperienceEntry
  projects : List ProjectEntry
deriving DecidableEq

/-- `CandidateProfile.get_all_skill_names`. -/
def CandidateProfile.get_all_skill_names (p : CandidateProfile) : List (List Char) :=
  (p.skills.map (fun cat => cat.items.map (fun item => item.name))).flatten

/-- `CandidateProfile.get_all_bullets` (company/title context dropped; only
the tags are read by the scorer). -/
def CandidateProfile.get_all_bullets (p : CandidateProfile) : List ExperienceBullet :=
  (p.experience.map (fun exp => exp.bullets)).flatten

/-! ## Job-profile scorer (`src/discovery/scorer.py`) -/

/-- The JD keyword set of `JobProfileScorer.score`:
`{k.canonical.lower() for k in extract_keywords(description, 25).keywords}`. -/
def jobJdSet (job : DiscoveredJob) : List (List Char) :=
  dedupKeys ((extract_keywords job.description_text 25).keywords.map
    (fun k => pyLower k.canonical))

/-- The candidate term set of `JobProfileScorer.score`: normalized and
lowercased skill names, experience bullet tags and project tech-stack
entries. -/
def candidateTermSet (profile : CandidateProfile) : List (List Char) :=
  dedupKeys
    ((profile.get_all_skill_names.map (fun s => pyLower (normalize_keyword s)))
      ++ ((profile.get_all_bullets.map (fun b => b.tags)).flatten.map
          (fun t => pyLower (normalize_keyword t)))
      ++ ((profile.projects.map (fun pr => pr.tech_stack)).flatten.map
          (fun t => pyLower (normalize_keyword t))))

/-- `len(jd_set & candidate_keywords)`. -/
def jobOverlap (job : DiscoveredJob) (profile : CandidateProfile) : ℕ :=
  ((jobJdSet job).filter (fun k => k ∈ candidateTermSet profile)).length

/-- `JobProfileScorer.score`: 0.0 with no description text; 50.0 with no
extractable JD keywords; otherwise the canonical-lowercased overlap with the
candidate term set over the JD set size, times 100, rounded to 1 decimal
(`round(x*10)/10`) and capped at 100.0. -/
def JobProfileScorer.score (job : DiscoveredJob) (profile : CandidateProfile) : ℚ :=
  if job.description_text.isEmpty then 0
  else if (jobJdSet job).isEmpty then 50
  else
    min (Rat.divInt (pyRound (Rat.divInt ((jobOverlap job profile : ℤ) * 1000)
      ((jobJdSet job).length : ℤ))) 10) 100

/-! ## Content selector skill ranking (`src/generator/content_selector.py`) -/

/-- `{"Expert": 3, "Advanced": 2, "Intermediate": 1}.get(proficiency, 1)`. -/
def proficiencyWeight (p : String) : ℕ :=
  if p = "Expert" then 3
  else if p = "Advanced" then 2
  else if p = "Intermediate" then 1
  else 1

/-- One scored skill of `_select_skills`: the source keeps `(name, score)`
with `score = relevance + prof_weight`; the two components are carried
alongside. -/
structure ScoredSkill where
  name : List Char
  relevance : ℕ
  weight : ℕ
  score : ℕ
deriving DecidableEq

/-- The flattened, scored skill list of `_select_skills`, in profile order:
`relevance = 10` iff the normalized lowercased name is in the JD keyword
set, plus the proficiency weight. -/
def skillEntries (profile : CandidateProfile) (jd_keywords : List (List Char)) :
    List ScoredSkill :=
  (profile.skills.map (fun cat => cat.items.map (fun item =>
    let normalized := pyLower (normalize_keyword item.name)
    let prof_weight := proficiencyWeight item.proficiency
    let relevance : ℕ := if normalized ∈ jd_keywords then 10 else 0
    (⟨item.name, relevance, prof_weight, relevance + prof_weight⟩ : ScoredSkill)))).flatten

/-- `skillLE a b`: the Python sort key `(-score, name)` of `a` is at most
that of `b` (higher score first, then name ascending). -/
def skillLE (a b : ScoredSkill) : Bool :=
  if b.score < a.score then true
  else if a.score < b.score then false
  else listLE a.name b.name

/-- The JD keyword set of `ContentSelector.select`:
`{k.canonical.lower() for k in extract_keywords(jd_text, 25).keywords}`. -/
def jdKeywordSet (jd_text : List Char) : List (List Char) :=
  dedupKeys ((extract_keywords jd_text 25).keywords.map (fun k => pyLower k.canonical))

/-- `ContentSelector._select_skills` (with the JD keyword set built as in
`select`): sort all scored skills by `(-score, name)` (stable) and keep the
first `max_skills` names. -/
def select_skills (profile : CandidateProfile) (jd_text : List Char) (max_skills : ℕ) :
    List (List Char) :=
  ((sortStable skillLE (skillEntries profile (jdKeywordSet jd_text))).map
    (fun e => e.name)).take max_skills

/-! ## Claim C6: alias normalization is idempotent -/

theorem dropWhile_idem (p : Char → Bool) (l : List Char) :
    (l.dropWhile p).dropWhile p = l.dropWhile p := by
  induction l with
  | nil => rfl
  | cons c t ih =>
    by_cases h : p c = true
    · simp [List.dropWhile_cons, h, ih]
    · simp [List.dropWhile_cons, h]

theorem dropWhile_head_not (p : Char → Bool) :
    ∀ (l : List Char) (c : Char) (t : List Char), l.dropWhile p = c :: t → p c = false
  | [], c, t => by intro h; simp at h
  | b :: l, c, t => by
    intro h
    by_cases hb : p b = true
    · rw [List.dropWhile_cons, if_pos hb] at h
      exact dropWhile_head_not p l c t h
    · rw [List.dropWhile_cons, if_neg hb] at h
      cases h
      exact Bool.eq_false_iff.mpr hb

theorem dropWhile_suffix_exists (p : Char → Bool) :
    ∀ l : List Char, ∃ pre, l = pre ++ l.dropWhile p
  | [] => ⟨[], rfl⟩
  | c :: t => by
    by_cases h : p c = true
    · obtain ⟨pre, hpre⟩ := dropWhile_suffix_exists p t
      exact ⟨c :: pre, by rw [List.dropWhile_cons, if_pos h]; simpa using hpre⟩
    · exact ⟨[], by rw [List.dropWhile_cons, if_neg h]; rfl⟩

theorem pyStrip_idem (s : List Char) : pyStrip (pyStrip s) = pyStrip s := by
  unfold pyStrip
  set u := s.dropWhile isSpaceChar with hu
  set w := u.reverse.dropWhile isSpaceChar with hw
  have hidem : u.dropWhile isSpaceChar = u := by
    rw [hu]
    exact dropWhile_idem isSpaceChar s
  have hstart : w.reverse.dropWhile isSpaceChar = w.reverse := by
    cases hv : w.reverse with
    | nil => simp
    | cons c t =>
      obtain ⟨pre, hpre⟩ := dropWhile_suffix_exists isSpaceChar u.reverse
      have hurev : u = w.reverse ++ pre.reverse := by
        calc u = u.reverse.reverse := by rw [List.reverse_reverse]
        _ = (pre ++ w).reverse := by rw [← hw] at hpre; rw [← hpre]
        _ = w.reverse ++ pre.reverse := by rw [List.reverse_append]
      have hc : isSpaceChar c = false := by
        have hcons : u = c :: (t ++ pre.reverse) := by
          rw [hurev, hv]; simp
        exact dropWhile_head_not isSpaceChar u c (t ++ pre.reverse)
          (by rw [hidem, hcons])
      rw [List.dropWhile_cons, if_neg (by simp [hc])]
  rw [hstart, List.reverse_reverse, hw, dropWhile_idem]

/-- Each alias value is itself a fixed point of `normalize_keyword`
(finite check over the table). -/
theorem alias_values_fixed :
    ∀ kv ∈ SKILL_ALIASES, normalize_keyword kv.2 = kv.2 := by decide

/-- Claim C6: alias normalization is idempotent — for every input string
`x`, `normalize_keyword (normalize_keyword x) = normalize_keyword x`, given
the fixed `SKILL_ALIASES` table. -/
theorem claim_C6 (x : List Char) :
    normalize_keyword (normalize_keyword x) = normalize_keyword x := by
  cases hl : lookupAssoc SKILL_ALIASES (pyLower (pyStrip x)) with
  | some v =>
    have hmem := lookupAssoc_mem SKILL_ALIASES (pyLower (pyStrip x)) v hl
    have hfix := alias_values_fixed (pyLower (pyStrip x), v) hmem
    have houter : normalize_keyword x = v := by
      simp only [normalize_keyword, hl]
    rw [houter, hfix]
  | none =>
    have houter : normalize_keyword x = pyStrip x := by
      simp only [normalize_keyword, hl]
    rw [houter]
    simp only [normalize_keyword, pyStrip_idem, hl]

/-! ## Claim C3: the extraction result contract -/

theorem filter_take_exists (P : α → Bool) :
    ∀ (l : List α) (n : ℕ), ∃ m, (l.take n).filter P = (l.filter P).take m
  | _, 0 => ⟨0, by simp⟩
  | [], _ => ⟨0, by simp⟩
  | c :: t, n + 1 => by
    obtain ⟨m, hm⟩ := filter_take_exists P t n
    by_cases h : P c = true
    · exact ⟨m + 1, by simp [List.filter_cons, h, hm]⟩
    · exact ⟨m, by simp [List.filter_cons, h, hm]⟩

/-- Claim C3: `extract_keywords` returns at most `N` keywords, retains the
raw text, sorts by frequency descending with ties kept in the pool's
first-seen (extraction) order, and yields an empty list (not an error) on
empty or whitespace-only input. -/
theorem claim_C3 (text : List Char) (N : ℕ) :
    (extract_keywords text N).keywords.length ≤ N ∧
    (extract_keywords text N).raw_text = text ∧
    List.Pairwise (fun a b => b.frequency ≤ a.frequency) (extract_keywords text N).keywords ∧
    (∀ n : ℕ, ∃ m : ℕ,
      (extract_keywords text N).keywords.filter (fun kw => kw.frequency = n) =
        ((keywordPool text N).filter (fun kw => kw.frequency = n)).take m) ∧
    (pyStrip text = [] → (extract_keywords text N).keywords = []) := by
  unfold extract_keywords
  by_cases h : text.isEmpty = true ∨ (pyStrip text).isEmpty = true
  · rw [if_pos h]
    refine ⟨by simp, rfl, by simp, fun n => ⟨0, by simp⟩, fun _ => rfl⟩
  · rw [if_neg h]
    refine ⟨?_, rfl, ?_, ?_, ?_⟩
    · simpa using List.length_take_le N _
    · have hp := pairwise_sortStable (descBy Keyword.frequency)
        (descBy_total Keyword.frequency) (descBy_trans Keyword.frequency)
        (keywordPool text N)
      have hsub : List.Sublist ((sortStable (descBy Keyword.frequency)
          (keywordPool text N)).take N)
          (sortStable (descBy Keyword.frequency) (keywordPool text N)) :=
        List.take_sublist N _
      exact (hp.sublist hsub).imp (by
        intro a b hab
        simpa [descBy] using hab)
    · intro n
      obtain ⟨m, hm⟩ := filter_take_exists (fun kw => decide (kw.frequency = n))
        (sortStable (descBy Keyword.frequency) (keywordPool text N)) N
      refine ⟨m, ?_⟩
      rw [hm, filter_sortStable_descBy Keyword.frequency n (keywordPool text N)]
    · intro hstrip
      exfalso
      exact h (Or.inr (by simp [hstrip]))

theorem claim_C3_witness :
    (extract_keywords "  ".data 5).keywords = [] ∧
    (extract_keywords "k8s".data 5).keywords.length ≤ 5 :=
  ⟨(claim_C3 "  ".data 5).2.2.2.2 (by decide), (claim_C3 "k8s".data 5).1⟩

/-! ## Claim C10: the formatting sub-score is bounded in [45, 100] -/

/-- Claim C10: for every resume text the formatting sub-score lies in
[45, 100]; the penalties sum to at most 55 (the too-short and too-long
penalties are mutually exclusive), so the final `max(score, 0)` clamp never
decides. -/
theorem claim_C10 (resume_text jd_text : List Char) :
    45 ≤ (ATSScorer.score resume_text jd_text).breakdown.formatting ∧
    (ATSScorer.score resume_text jd_text).breakdown.formatting ≤ 100 ∧
    (ATSScorer.score resume_text jd_text).breakdown.formatting =
      formattingRawScore resume_text := by
  have hfield : (ATSScorer.score resume_text jd_text).breakdown.formatting =
      max (formattingRawScore resume_text) 0 := rfl
  have h45 : 45 ≤ formattingRawScore resume_text := by
    simp only [formattingRawScore]
    split_ifs <;> omega
  have h100 : formattingRawScore resume_text ≤ 100 := by
    simp only [formattingRawScore]
    split_ifs <;> omega
  rw [hfield]
  omega

/-! ## Claim C1: breakdown fields in [0,100] and the overall-score formula -/

theorem pyRound_divInt_nonneg {a b : ℤ} (hb : 0 < b) (ha : 0 ≤ a) :
    0 ≤ pyRound (Rat.divInt a b) := by
  apply pyRound_ge
  rw [Rat.divInt_eq_div]
  push_cast
  apply div_nonneg (by exact_mod_cast ha) (by exact_mod_cast hb.le)

theorem pyRound_divInt_le {a b n : ℤ} (hb : 0 < b) (h : a ≤ n * b) :
    pyRound (Rat.divInt a b) ≤ n := by
  apply pyRound_le
  rw [Rat.divInt_eq_div]
  rw [div_le_iff₀ (by exact_mod_cast hb : (0:ℚ) < (b:ℚ))]
  exact_mod_cast h

theorem pyRound_divInt_ge {a b n : ℤ} (hb : 0 < b) (h : n * b ≤ a) :
    n ≤ pyRound (Rat.divInt a b) := by
  apply pyRound_ge
  rw [Rat.divInt_eq_div]
  rw [le_div_iff₀ (by exact_mod_cast hb : (0:ℚ) < (b:ℚ))]
  exact_mod_cast h

theorem importanceWeight_pos (s : String) : 1 ≤ importanceWeight s := by
  unfold importanceWeight
  split_ifs <;> omega

theorem kmTotalWeight_pos {jd_text : List Char}
    (h : ¬(jdKeywords25 jd_text).isEmpty = true) : 0 < kmTotalWeight jd_text := by
  unfold kmTotalWeight
  apply List.sum_pos
  · intro x hx
    obtain ⟨kw, _, rfl⟩ := List.mem_map.mp hx
    exact lt_of_lt_of_le (by norm_num) (importanceWeight_pos kw.importance)
  · simp only [ne_eq, List.map_eq_nil_iff]
    intro hnil
    exact h (by simp [hnil])

theorem kmMatchedWeight_nonneg (resume_text jd_text : List Char) :
    0 ≤ kmMatchedWeight resume_text jd_text := by
  unfold kmMatchedWeight
  apply List.sum_nonneg
  intro x hx
  obtain ⟨kw, _, rfl⟩ := List.mem_map.mp hx
  split_ifs
  · exact le_trans (by norm_num) (importanceWeight_pos kw.importance)
  · exact le_refl 0

theorem score_keyword_match_bounds (resume_text jd_text : List Char) :
    0 ≤ (score_keyword_match resume_text jd_text).1 ∧
    (score_keyword_match resume_text jd_text).1 ≤ 100 := by
  unfold score_keyword_match
  by_cases h : (jdKeywords25 jd_text).isEmpty = true
  · rw [if_pos h]
    exact ⟨by norm_num, by norm_num⟩
  · rw [if_neg h]
    simp only
    constructor
    · apply le_min ?_ (by norm_num)
      split_ifs with htw
      · exact pyRound_divInt_nonneg htw
          (by have := kmMatchedWeight_nonneg resume_text jd_text; omega)
      · exact le_refl 0
    · exact min_le_right _ _

theorem score_sections_bounds (resume_text : List Char) :
    0 ≤ score_sections resume_text ∧ score_sections resume_text ≤ 100 := by
  unfold score_sections
  simp only
  have hexp : EXPECTED_SECTIONS.length = 4 := rfl
  have hopt : OPTIONAL_SECTIONS.length = 2 := rfl
  set resume_lower := pyLower resume_text
  set fA := (EXPECTED_SECTIONS.filter
    (fun s => (expectedSectionVariations s).any (fun v => containsSub resume_lower v))).length
    with hfA
  set fB := (OPTIONAL_SECTIONS.filter
    (fun s => (optionalSectionVariations s).any (fun v => containsSub resume_lower v))).length
    with hfB
  have hA : fA ≤ 4 := by rw [hfA, ← hexp]; exact List.length_filter_le _ _
  have hB : fB ≤ 2 := by rw [hfB, ← hopt]; exact List.length_filter_le _ _
  rw [hexp, hopt]
  rw [if_pos (by norm_num : (0:ℕ) < 4 + 2)]
  constructor
  · exact pyRound_divInt_nonneg (by norm_num) (by positivity)
  · apply pyRound_divInt_le (by norm_num)
    have : ((fA + fB : ℕ) : ℤ) ≤ 6 := by exact_mod_cast Nat.add_le_add hA hB
    push_cast
    omega

theorem score_keyword_density_bounds (resume_text : List Char)
    (matched_keywords : List (List Char)) :
    0 ≤ score_keyword_density resume_text matched_keywords ∧
    score_keyword_density resume_text matched_keywords ≤ 100 := by
  simp only [score_keyword_density]
  split_ifs <;> omega

theorem score_experience_relevance_bounds (resume_text jd_text : List Char) :
    0 ≤ score_experience_relevance resume_text jd_text ∧
    score_experience_relevance resume_text jd_text ≤ 100 := by
  unfold score_experience_relevance
  by_cases h : (erJdSet jd_text).isEmpty = true
  · rw [if_pos h]
    exact ⟨by norm_num, by norm_num⟩
  · rw [if_neg h]
    simp only
    have hlen : 0 < ((erJdSet jd_text).length : ℤ) := by
      have := List.isEmpty_iff.not.mp h
      have hpos : 0 < (erJdSet jd_text).length := List.length_pos.mpr this
      exact_mod_cast hpos
    constructor
    · exact le_min (pyRound_divInt_nonneg hlen (by positivity)) (by norm_num)
    · exact min_le_right _ _

/-- Claim C1: for every pair of input strings, each of the five breakdown
fields is in [0,100], the overall score equals
`round(0.40*km + 0.15*sc + 0.15*kd + 0.15*er + 0.15*fmt)` (banker's
rounding over exact rationals), and hence the overall score is in [0,100]. -/
theorem claim_C1 (resume_text jd_text : List Char) :
    (0 ≤ (ATSScorer.score resume_text jd_text).breakdown.keyword_match ∧
      (ATSScorer.score resume_text jd_text).breakdown.keyword_match ≤ 100) ∧
    (0 ≤ (ATSScorer.score resume_text jd_text).breakdown.section_completeness ∧
      (ATSScorer.score resume_text jd_text).breakdown.section_completeness ≤ 100) ∧
    (0 ≤ (ATSScorer.score resume_text jd_text).breakdown.keyword_density ∧
      (ATSScorer.score resume_text jd_text).breakdown.keyword_density ≤ 100) ∧
    (0 ≤ (ATSScorer.score resume_text jd_text).breakdown.experience_relevance ∧
      (ATSScorer.score resume_text jd_text).breakdown.experience_relevance ≤ 100) ∧
    (0 ≤ (ATSScorer.score resume_text jd_text).breakdown.formatting ∧
      (ATSScorer.score resume_text jd_text).breakdown.formatting ≤ 100) ∧
    (ATSScorer.score resume_text jd_text).overall_score =
      pyRound ((0.40 : ℚ)
          * ((ATSScorer.score resume_text jd_text).breakdown.keyword_match : ℚ)
        + (0.15 : ℚ)
          * ((ATSScorer.score resume_text jd_text).breakdown.section_completeness : ℚ)
        + (0.15 : ℚ)
          * ((ATSScorer.score resume_text jd_text).breakdown.keyword_density : ℚ)
        + (0.15 : ℚ)
          * ((ATSScorer.score resume_text jd_text).breakdown.experience_relevance : ℚ)
        + (0.15 : ℚ)
          * ((ATSScorer.score resume_text jd_text).breakdown.formatting : ℚ)) ∧
    (0 ≤ (ATSScorer.score resume_text jd_text).overall_score ∧
      (ATSScorer.score resume_text jd_text).overall_score ≤ 100) := by
  have hkm : (ATSScorer.score resume_text jd_text).breakdown.keyword_match =
      (score_keyword_match resume_text jd_text).1 := rfl
  have hsc : (ATSScorer.score resume_text jd_text).breakdown.section_completeness =
      score_sections resume_text := rfl
  have hkd : (ATSScorer.score resume_text jd_text).breakdown.keyword_density =
      score_keyword_density resume_text (score_keyword_match resume_text jd_text).2.1 := rfl
  have her : (ATSScorer.score resume_text jd_text).breakdown.experience_relevance =
      score_experience_relevance resume_text jd_text := rfl
  have hfm : (ATSScorer.score resume_text jd_text).breakdown.formatting =
      (score_formatting resume_text).1 := rfl
  have hov : (ATSScorer.score resume_text jd_text).overall_score =
      pyRound (Rat.divInt (40 * (score_keyword_match resume_text jd_text).1
        + 15 * score_sections resume_text
        + 15 * score_keyword_density resume_text (score_keyword_match resume_text jd_text).2.1
        + 15 * score_experience_relevance resume_text jd_text
        + 15 * (score_formatting resume_text).1) 100) := rfl
  have b1 := score_keyword_match_bounds resume_text jd_text
  have b2 := score_sections_bounds resume_text
  have b3 := score_keyword_density_bounds resume_text
    (score_keyword_match resume_text jd_text).2.1
  have b4 := score_experience_relevance_bounds resume_text jd_text
  have b5l : 0 ≤ (score_formatting resume_text).1 := le_max_right _ _
  have b5u : (score_formatting resume_text).1 ≤ 100 := by
    have := (claim_C10 resume_text jd_text).2.1
    rw [hfm] at this
    exact this
  refine ⟨⟨hkm ▸ b1.1, hkm ▸ b1.2⟩, ⟨hsc ▸ b2.1, hsc ▸ b2.2⟩, ⟨hkd ▸ b3.1, hkd ▸ b3.2⟩,
    ⟨her ▸ b4.1, her ▸ b4.2⟩, ⟨hfm ▸ b5l, hfm ▸ b5u⟩, ?_, ?_, ?_⟩
  · rw [hov, hkm, hsc, hkd, her, hfm]
    congr 1
    rw [Rat.divInt_eq_div]
    push_cast
    ring_nf
  · rw [hov]
    apply pyRound_divInt_nonneg (by norm_num)
    rcases b1 with ⟨x1, _⟩
    rcases b2 with ⟨x2, _⟩
    rcases b3 with ⟨x3, _⟩
    rcases b4 with ⟨x4, _⟩
    omega
  · rw [hov]
    apply pyRound_divInt_le (by norm_num)
    rcases b1 with ⟨_, y1⟩
    rcases b2 with ⟨_, y2⟩
    rcases b3 with ⟨_, y3⟩
    rcases b4 with ⟨_, y4⟩
    omega

/-! ## Claim C2: scoring a JD against itself -/

theorem score_keyword_match_fst (resume_text jd_text : List Char) :
    (score_keyword_match resume_text jd_text).1 =
      if (jdKeywords25 jd_text).isEmpty then 100
      else min (if 0 < kmTotalWeight jd_text
        then pyRound (Rat.divInt (kmMatchedWeight resume_text jd_text * 100)
          (kmTotalWeight jd_text))
        else 0) 100 := by
  unfold score_keyword_match
  by_cases h : (jdKeywords25 jd_text).isEmpty = true
  · rw [if_pos h, if_pos h]
  · rw [if_neg h, if_neg h]

/-- Claim C2 as stated is false on the code: for the non-empty JD `"k8s"`,
the only extracted keyword is the canonical form `Kubernetes`, which does
not occur in the text, so `scoreResume(jd, jd)` has keyword_match `< 80`
(in fact 0). -/
theorem claim_C2_counterexample :
    "k8s".data ≠ [] ∧
    (ATSScorer.score "k8s".data "k8s".data).breakdown.keyword_match < 80 := by
  decide

/-- Claim C2 (amended): `scoreResume(jd, jd)` yields keyword_match ≥ 80
(indeed 100) for every JD text all of whose extracted keywords have their
canonical form occurring case-insensitively in the text — the counterexample
forces exactly the exception of alias-only canonical forms (e.g. `k8s` →
`Kubernetes`) that never occur verbatim. -/
theorem claim_C2_amended (jd : List Char)
    (h : ∀ kw ∈ (extract_keywords jd 25).keywords,
      containsSub (pyLower jd) (pyLower kw.canonical) = true) :
    80 ≤ (ATSScorer.score jd jd).breakdown.keyword_match := by
  have hkm : (ATSScorer.score jd jd).breakdown.keyword_match =
      (score_keyword_match jd jd).1 := rfl
  rw [hkm, score_keyword_match_fst]
  by_cases hempty : (jdKeywords25 jd).isEmpty = true
  · rw [if_pos hempty]
    norm_num
  · rw [if_neg hempty]
    have htw : 0 < kmTotalWeight jd := kmTotalWeight_pos hempty
    have hmap : jdKeywords25 jd =
        (extract_keywords jd 25).keywords.map (importanceEntry jd) := rfl
    have hall : ∀ kw ∈ jdKeywords25 jd, kw.keyword ∈ kmMatched jd jd := by
      intro kw hkw
      have hcont : containsSub (pyLower jd) (pyLower kw.keyword) = true := by
        rw [hmap] at hkw
        obtain ⟨k, hk, hkeq⟩ := List.mem_map.mp hkw
        rw [← hkeq]
        exact h k hk
      unfold kmMatched
      exact List.mem_map.mpr ⟨kw, List.mem_filter.mpr ⟨hkw, by simp [hcont]⟩, rfl⟩
    have hmw : kmMatchedWeight jd jd = kmTotalWeight jd := by
      unfold kmMatchedWeight kmTotalWeight
      apply congrArg List.sum
      apply List.map_congr_left
      intro kw hkw
      rw [if_pos (hall kw hkw)]
    rw [if_pos htw, hmw]
    have htwQ : ((kmTotalWeight jd : ℤ) : ℚ) ≠ 0 := by
      exact_mod_cast htw.ne'
    have hdiv : Rat.divInt (kmTotalWeight jd * 100) (kmTotalWeight jd) = (100 : ℚ) := by
      rw [Rat.divInt_eq_div]
      push_cast
      field_simp
    rw [hdiv]
    have h100 : pyRound (100 : ℚ) = 100 := by decide
    rw [h100]
    norm_num

theorem claim_C2_amended_witness :
    80 ≤ (ATSScorer.score "docker".data "docker".data).breakdown.keyword_match :=
  claim_C2_amended "docker".data (by decide)

/-! ## Claim C5: keyword-match monotonicity -/

/-- Claim C5: with a fixed JD, if every extracted JD keyword present
(case-insensitive substring) in `r1` is also present in `r2`, then the
keyword_match sub-score of `r2` is at least that of `r1`. -/
theorem claim_C5 (jd r1 r2 : List Char)
    (h : ∀ kw ∈ jdKeywords25 jd,
      containsSub (pyLower r1) (pyLower kw.keyword) = true →
      containsSub (pyLower r2) (pyLower kw.keyword) = true) :
    (ATSScorer.score r1 jd).breakdown.keyword_match ≤
      (ATSScorer.score r2 jd).breakdown.keyword_match := by
  have h1 : (ATSScorer.score r1 jd).breakdown.keyword_match =
      (score_keyword_match r1 jd).1 := rfl
  have h2 : (ATSScorer.score r2 jd).breakdown.keyword_match =
      (score_keyword_match r2 jd).1 := rfl
  rw [h1, h2, score_keyword_match_fst, score_keyword_match_fst]
  by_cases hempty : (jdKeywords25 jd).isEmpty = true
  · rw [if_pos hempty, if_pos hempty]
  · rw [if_neg hempty, if_neg hempty]
    apply min_le_min ?_ (le_refl 100)
    by_cases htw : 0 < kmTotalWeight jd
    · rw [if_pos htw, if_pos htw]
      apply pyRound_mono
      rw [Rat.divInt_eq_div, Rat.divInt_eq_div]
      have hmw : kmMatchedWeight r1 jd ≤ kmMatchedWeight r2 jd := by
        unfold kmMatchedWeight
        apply List.sum_le_sum
        intro kw hkw
        by_cases hm1 : kw.keyword ∈ kmMatched r1 jd
        · have hc1 : containsSub (pyLower r1) (pyLower kw.keyword) = true := by
            unfold kmMatched at hm1
            obtain ⟨kw2, hkw2, heq⟩ := List.mem_map.mp hm1
            obtain ⟨_, htest⟩ := List.mem_filter.mp hkw2
            rw [← heq]
            exact htest
          have hc2 := h kw hkw hc1
          have hm2 : kw.keyword ∈ kmMatched r2 jd := by
            unfold kmMatched
            exact List.mem_map.mpr ⟨kw, List.mem_filter.mpr ⟨hkw, hc2⟩, rfl⟩
          rw [if_pos hm1, if_pos hm2]
        · rw [if_neg hm1]
          split_ifs
          · exact le_trans (by norm_num) (importanceWeight_pos kw.importance)
          · exact le_refl 0
      have hcast : ((kmMatchedWeight r1 jd * 100 : ℤ) : ℚ) ≤
          ((kmMatchedWeight r2 jd * 100 : ℤ) : ℚ) := by
        exact_mod_cast mul_le_mul_of_nonneg_right hmw (by norm_num)
      have htwQ : (0:ℚ) < ((kmTotalWeight jd : ℤ) : ℚ) := by exact_mod_cast htw
      gcongr
    · rw [if_neg htw, if_neg htw]

theorem claim_C5_witness :
    (ATSScorer.score "".data "k8s".data).breakdown.keyword_match ≤
      (ATSScorer.score "x kubernetes".data "k8s".data).breakdown.keyword_match :=
  claim_C5 "k8s".data "".data "x kubernetes".data (by decide)

/-! ## Claim C4: the job-profile scorer's case contract -/

theorem foldl_dedup_ne_nil :
    ∀ (t acc : List (List Char)), acc ≠ [] →
      t.foldl (fun acc x => if x ∈ acc then acc else acc ++ [x]) acc ≠ []
  | [], acc, h => h
  | x :: t, acc, h => by
    rw [List.foldl_cons]
    apply foldl_dedup_ne_nil t
    split_ifs with hx
    · exact h
    · simp

theorem dedupKeys_ne_nil (l : List (List Char)) (h : l ≠ []) : dedupKeys l ≠ [] := by
  unfold dedupKeys
  match l, h with
  | x :: t, _ =>
    rw [List.foldl_cons]
    apply foldl_dedup_ne_nil t
    simp

/-- Claim C4: `scoreJobAgainstProfile` returns exactly 0.0 when the job's
description text is empty or absent; otherwise exactly 50.0 when keyword
extraction yields zero keywords; otherwise
`round(|jd_set ∩ candidate_set| / |jd_set| * 100, 1)` capped at 100.0. -/
theorem claim_C4 (job : DiscoveredJob) (profile : CandidateProfile) :
    (job.description_text = [] → JobProfileScorer.score job profile = 0) ∧
    (job.description_text ≠ [] →
      (extract_keywords job.description_text 25).keywords = [] →
      JobProfileScorer.score job profile = 50) ∧
    (job.description_text ≠ [] →
      (extract_keywords job.description_text 25).keywords ≠ [] →
      JobProfileScorer.score job profile =
        min (Rat.divInt (pyRound (Rat.divInt ((jobOverlap job profile : ℤ) * 1000)
          ((jobJdSet job).length : ℤ))) 10) 100) := by
  refine ⟨?_, ?_, ?_⟩
  · intro h
    unfold JobProfileScorer.score
    rw [if_pos (by simp [h])]
  · intro hne hkw
    unfold JobProfileScorer.score
    rw [if_neg (by simp [hne]), if_pos ?_]
    unfold jobJdSet
    rw [hkw]
    rfl
  · intro hne hkw
    unfold JobProfileScorer.score
    rw [if_neg (by simp [hne]), if_neg ?_]
    have hmap : (extract_keywords job.description_text 25).keywords.map
        (fun k => pyLower k.canonical) ≠ [] := by
      simpa using hkw
    have := dedupKeys_ne_nil _ hmap
    unfold jobJdSet
    simpa using this

theorem claim_C4_witness :
    JobProfileScorer.score ⟨[], [], [], [], [], [], [], []⟩ ⟨[], [], [], []⟩ = 0 ∧
    JobProfileScorer.score ⟨[], [], [], [], [], [], "  ".data, []⟩ ⟨[], [], [], []⟩ = 50 :=
  ⟨(claim_C4 ⟨[], [], [], [], [], [], [], []⟩ ⟨[], [], [], []⟩).1 rfl,
   (claim_C4 ⟨[], [], [], [], [], [], "  ".data, []⟩ ⟨[], [], [], []⟩).2.1
     (by decide) (by decide)⟩

/-! ## Claim C7: the content selector's skill ranking -/

theorem skillLE_iff (a b : ScoredSkill) :
    skillLE a b = true ↔
      b.score < a.score ∨ (a.score = b.score ∧ listLE a.name b.name = true) := by
  unfold skillLE
  split_ifs with g1 g2
  · simp [g1]
  · constructor
    · intro h
      exact absurd h (by simp)
    · rintro (h | ⟨h, _⟩) <;> omega
  · have heq : a.score = b.score := by omega
    rw [heq]
    simp [lt_irrefl]

theorem skillLE_total : ∀ a b : ScoredSkill, skillLE a b = false → skillLE b a = true := by
  intro a b hab
  have hnot : ¬(b.score < a.score ∨ (a.score = b.score ∧ listLE a.name b.name = true)) := by
    rw [← skillLE_iff]
    simp [hab]
  rw [skillLE_iff]
  push_neg at hnot
  obtain ⟨hn1, hn2⟩ := hnot
  rcases Nat.lt_trichotomy a.score b.score with h | h | h
  · exact Or.inl h
  · refine Or.inr ⟨h.symm, ?_⟩
    rcases listLE_total a.name b.name with hle | hle
    · exact absurd hle (by simpa using hn2 h)
    · exact hle
  · omega

theorem skillLE_trans : ∀ a b c : ScoredSkill,
    skillLE a b = true → skillLE b c = true → skillLE a c = true := by
  intro a b c h1 h2
  rw [skillLE_iff] at h1 h2 ⊢
  rcases h1 with h1 | ⟨h1, hn1⟩
  · rcases h2 with h2 | ⟨h2, _⟩
    · exact Or.inl (by omega)
    · exact Or.inl (by omega)
  · rcases h2 with h2 | ⟨h2, hn2⟩
    · exact Or.inl (by omega)
    · exact Or.inr ⟨by omega, listLE_trans a.name b.name c.name hn1 hn2⟩

theorem mem_foldl_insertStable (le : α → α → Bool) :
    ∀ (l acc : List α) (a : α),
      a ∈ l.foldl (fun acc x => insertStable le x acc) acc ↔ a ∈ acc ∨ a ∈ l
  | [], acc, a => by simp
  | x :: t, acc, a => by
    rw [List.foldl_cons, mem_foldl_insertStable le t]
    rw [mem_insertStable]
    simp only [List.mem_cons]
    tauto

theorem mem_sortStable (le : α → α → Bool) (l : List α) (a : α) :
    a ∈ sortStable le l ↔ a ∈ l := by
  unfold sortStable
  rw [mem_foldl_insertStable]
  simp

theorem proficiencyWeight_bounds (p : String) :
    1 ≤ proficiencyWeight p ∧ proficiencyWeight p ≤ 3 := by
  unfold proficiencyWeight
  split_ifs <;> omega

theorem skillEntries_spec (profile : CandidateProfile) (K : List (List Char)) :
    ∀ e ∈ skillEntries profile K,
      e.relevance = (if pyLower (normalize_keyword e.name) ∈ K then 10 else 0) ∧
      1 ≤ e.weight ∧ e.weight ≤ 3 ∧ e.score = e.relevance + e.weight := by
  intro e he
  unfold skillEntries at he
  rw [List.mem_flatten] at he
  obtain ⟨inner, hinner, hei⟩ := he
  rw [List.mem_map] at hinner
  obtain ⟨cat, _, rfl⟩ := hinner
  rw [List.mem_map] at hei
  obtain ⟨item, _, rfl⟩ := hei
  refine ⟨by simp, (proficiencyWeight_bounds item.proficiency).1,
    (proficiencyWeight_bounds item.proficiency).2, rfl⟩

/-- Claim C7: the selected skill list has at most `maxSkills` entries and is
the truncation of the stably sorted scored list; in that sorted list every
JD-matching skill (normalized lowercased name in the JD keyword set) is
ranked ahead of every non-matching one regardless of proficiency, among
equally-relevant skills the higher proficiency weight comes first, and the
name order (ascending) is the final tie-break. -/
theorem claim_C7 (profile : CandidateProfile) (jd_text : List Char) (max_skills : ℕ) :
    (select_skills profile jd_text max_skills).length ≤ max_skills ∧
    select_skills profile jd_text max_skills =
      ((sortStable skillLE (skillEntries profile (jdKeywordSet jd_text))).map
        (fun e => e.name)).take max_skills ∧
    List.Pairwise (fun a b =>
        (pyLower (normalize_keyword b.name) ∈ jdKeywordSet jd_text →
          pyLower (normalize_keyword a.name) ∈ jdKeywordSet jd_text) ∧
        ((pyLower (normalize_keyword a.name) ∈ jdKeywordSet jd_text ↔
          pyLower (normalize_keyword b.name) ∈ jdKeywordSet jd_text) →
          (b.weight < a.weight ∨ (a.weight = b.weight ∧ listLE a.name b.name = true))))
      (sortStable skillLE (skillEntries profile (jdKeywordSet jd_text))) := by
  refine ⟨?_, rfl, ?_⟩
  · unfold select_skills
    simpa using List.length_take_le max_skills _
  · have hp := pairwise_sortStable skillLE skillLE_total skillLE_trans
      (skillEntries profile (jdKeywordSet jd_text))
    apply hp.imp_of_mem
    intro a b ha hb hab
    rw [mem_sortStable] at ha hb
    obtain ⟨hra, hwa1, hwa3, hsa⟩ := skillEntries_spec profile (jdKeywordSet jd_text) a ha
    obtain ⟨hrb, hwb1, hwb3, hsb⟩ := skillEntries_spec profile (jdKeywordSet jd_text) b hb
    rw [skillLE_iff] at hab
    constructor
    · intro hmb
      by_contra hma
      rw [if_pos hmb] at hrb
      rw [if_neg hma] at hra
      rcases hab with hk | ⟨hk, _⟩ <;> omega
    · intro hiff
      by_cases hma : pyLower (normalize_keyword a.name) ∈ jdKeywordSet jd_text
      · have hmb := hiff.mp hma
        rw [if_pos hma] at hra
        rw [if_pos hmb] at hrb
        rcases hab with hk | ⟨hk, hname⟩
        · exact Or.inl (by omega)
        · exact Or.inr ⟨by omega, hname⟩
      · have hmb : ¬ pyLower (normalize_keyword b.name) ∈ jdKeywordSet jd_text :=
          fun hb2 => hma (hiff.mpr hb2)
        rw [if_neg hma] at hra
        rw [if_neg hmb] at hrb
        rcases hab with hk | ⟨hk, hname⟩
        · exact Or.inl (by omega)
        · exact Or.inr ⟨by omega, hname⟩

/-! ## Claim C8: the keyword suggestion tiers -/

/-- Claim C8 as stated is false on the code: a score result with
keyword_match below 60 but no high-importance missing keyword gets no
critical suggestion at all (the code only emits it when the filtered
high-importance list is non-empty). -/
theorem claim_C8_counterexample :
    let sr : ScoreResult :=
      ⟨80, ⟨50, 100, 100, 100, 100⟩, [], [⟨"docker".data, "skill", "low", 1⟩], []⟩
    sr.breakdown.keyword_match < 60 ∧
    criticalKeywordSuggestion (((highPriorityMissing sr).take 5).map (fun kw => kw.keyword))
      ∉ generate_suggestions sr := by
  decide

/-- Claim C8 (amended): for keyword_match below 60 the critical suggestion
naming the top 5 high-importance missing keywords is emitted provided at
least one high-importance missing keyword exists; for keyword_match in
[60, 80) the generic suggestion naming the first 5 missing keywords is
emitted provided the missing list is non-empty. -/
theorem claim_C8_amended (sr : ScoreResult) :
    (sr.breakdown.keyword_match < 60 → highPriorityMissing sr ≠ [] →
      criticalKeywordSuggestion
        (((highPriorityMissing sr).take 5).map (fun kw => kw.keyword))
        ∈ generate_suggestions sr) ∧
    (60 ≤ sr.breakdown.keyword_match → sr.breakdown.keyword_match < 80 →
      sr.missing_keywords ≠ [] →
      considerKeywordSuggestion ((sr.missing_keywords.take 5).map (fun kw => kw.keyword))
        ∈ generate_suggestions sr) := by
  constructor
  · intro hkm hhp
    simp only [generate_suggestions]
    rw [if_pos hkm]
    rw [if_neg (by simpa [List.isEmpty_iff] using hhp)]
    simp
  · intro hkm1 hkm2 hmiss
    simp only [generate_suggestions]
    rw [if_neg (by omega : ¬ sr.breakdown.keyword_match < 60), if_pos hkm2]
    rw [if_neg ?_]
    · simp
    · simp only [List.isEmpty_iff, List.take_eq_nil_iff]
      push_neg
      exact ⟨by norm_num, hmiss⟩

theorem claim_C8_amended_witness :
    criticalKeywordSuggestion
      (((highPriorityMissing
        ⟨29, ⟨0, 0, 50, 100, 45⟩, [], [⟨"Kubernetes".data, "skill", "high", 1⟩], []⟩).take 5).map
        (fun kw => kw.keyword))
      ∈ generate_suggestions
        ⟨29, ⟨0, 0, 50, 100, 45⟩, [], [⟨"Kubernetes".data, "skill", "high", 1⟩], []⟩ :=
  (claim_C8_amended _).1 (by decide) (by decide)

/-! ## Claim C9: keywords absent from the text are always high importance -/

/-- Claim C9 (implicit behaviour): any extracted keyword whose canonical
form does not occur case-insensitively in the input text and whose stored
surface text also does not occur is assigned importance `high` regardless of
frequency, because the not-found sentinel `-1` compares as strictly before
the midpoint; and `extract_keywords_with_importance` is exactly the map of
this per-keyword weighting over the extraction. -/
theorem claim_C9 (jd_text : List Char) (N : ℕ) (kw : Keyword)
    (hmem : kw ∈ (extract_keywords jd_text N).keywords)
    (h1 : findSub (pyLower jd_text) (pyLower kw.canonical) = -1)
    (h2 : findSub (pyLower jd_text) (pyLower kw.text) = -1) :
    (importanceEntry jd_text kw).importance = "high" ∧
    extract_keywords_with_importance jd_text N =
      ((extract_keywords jd_text N).keywords).map (importanceEntry jd_text) := by
  refine ⟨?_, rfl⟩
  have hmid : (-1 : ℤ) < ((jd_text.length / 2 : ℕ) : ℤ) := by
    have : (0 : ℤ) ≤ ((jd_text.length / 2 : ℕ) : ℤ) := Int.natCast_nonneg _
    omega
  unfold importanceEntry
  simp [h1, h2, hmid]
  intro hcontra
  omega

theorem claim_C9_witness :
    (importanceEntry "k8s".data ⟨"Kubernetes".data, "Kubernetes".data, 1, "skill"⟩).importance
      = "high" :=
  (claim_C9 "k8s".data 25 ⟨"Kubernetes".data, "Kubernetes".data, 1, "skill"⟩
    (by decide) (by decide) (by decide)).1
